import Mathlib

/-!
CEVV-Rudder: sampling-to-report pipeline

A shallow embedding of `src/main.c` (analog capture, running min/max
calibration, integer rescaling and the rate-limited HID dispatcher) together
with the properties established about it.

Conventions of the embedding
* C `long`/`int` values are `Int`.  `map` takes the arithmetic exactly, which
  agrees with the code wherever no intermediate result leaves the 32-bit
  `long`; `map32` reduces every operation to the signed 32-bit range.  A zero
  divisor, which C leaves undefined, is `none` in both.
* `uint16_t`/`uint32_t` values are `Nat` with an explicit reduction modulo
  `2^16`/`2^32` wherever the C code can wrap or truncate.
* `static` variables and hardware inputs are explicit state and input records.
-/

namespace Rudder

/-! ## Scaler: `map` (main.c 63-66) -/

/-- The value of `MAX_VAL` (2048.0) after its conversion to `long` at the call of `map`. -/
def MAX_VAL : Int := 2048

/-- Embedding of `long map(long x, long in_min, long in_max, long out_min, long out_max)`:
`(x - in_min) * (out_max - out_min) / (in_max - in_min) + out_min`, where `/` is the
C integer division (quotient truncated toward zero, `Int.tdiv`).  A zero divisor is
undefined behaviour in C and is reported as `none`. -/
def map (x in_min in_max out_min out_max : Int) : Option Int :=
  if in_max - in_min = 0 then none
  else some (Int.tdiv ((x - in_min) * (out_max - out_min)) (in_max - in_min) + out_min)

/-- Truncating integer division in the words of the specification: the quotient of the
magnitudes, carrying the sign of the exact quotient (so it is rounded toward zero). -/
def truncDiv (n d : Int) : Int :=
  Int.sign n * Int.sign d * ((n.natAbs / d.natAbs : Nat) : Int)

/-- The Scaler formula of the specification (section 4.3):
`(reading - min) * (outMax - outMin) / (max - min) + outMin` with truncating division. -/
def scale_spec (reading min max outMin outMax : Int) : Int :=
  truncDiv ((reading - min) * (outMax - outMin)) (max - min) + outMin

/-! ## Range tracker and scaling step of the main loop (main.c 81-104) -/

/-- The calibration bounds `min`, `max` held by `main` (both `uint16_t`). -/
structure Range where
  min : Nat
  max : Nat
deriving DecidableEq, Repr

/-- Initial bounds set by `main` before the loop: `min = 4090; max = 0;`. -/
def main_init : Range := { min := 4090, max := 0 }

/-- The two range-update statements of the loop body (main.c 95-102):
`if (res < min) min = res;  if (res > max) max = res;`. -/
def range_update (s : Range) (res : Nat) : Range :=
  let min1 := if res < s.min then res else s.min
  let max1 := if res > s.max then res else s.max
  { min := min1, max := max1 }

/-- The range after the loop body has processed the readings of `rs` in order,
starting from the bounds `s`. -/
def range_run (s : Range) (rs : List Nat) : Range :=
  rs.foldl range_update s

/-- The scaled value computed by one loop iteration (main.c 95-104) for the reading
`res`, the bounds before the iteration being `s`:
the range is updated first, then `scaledz = map(res, min, max, 0, +MAX_VAL)`. -/
def main_scaled (s : Range) (res : Nat) : Option Int :=
  let s1 := range_update s res
  map (res : Int) (s1.min : Int) (s1.max : Int) 0 MAX_VAL

/-! ## Analog sampler: `adc_capture` (main.c 38-59) -/

/-- The sample stream of the converter: `fifo k` is the value returned by the
`(k+1)`-th call of `adc_fifo_get_blocking` since the stream was opened.  The
program state relevant to the sampler is the number of samples already taken. -/
abbrev Fifo := Nat → Nat

/-- The `for (int i = 0; i <= count; i = i + 1)` loop of `adc_capture`, entered with
loop counter `i`, accumulator `total` (`uint32_t`) and `pos` samples already taken.
Each iteration does `res = adc_fifo_get_blocking();` (stored in a `uint16_t`) and
`total += (uint32_t)res;`.  Returns the final accumulator and stream position. -/
def adc_capture_loop (fifo : Fifo) (count : Nat) (i total pos : Nat) : Nat × Nat :=
  if i ≤ count then
    let res := fifo pos % 65536
    adc_capture_loop fifo count (i + 1) ((total + res) % 4294967296) (pos + 1)
  else
    (total, pos)
termination_by count + 1 - i

/-- Embedding of `uint16_t adc_capture(uint8_t pow)`, started with `pos` samples of the
stream already taken: `count = (1 << pow) - 1` is stored in a `uint16_t`, the loop
accumulates the samples, and `total >> pow` is returned through the `uint16_t`
return type.  The result pairs the returned value with the new stream position.
(The shifts are the mathematical ones; C defines them for `pow <= 30` only.) -/
def adc_capture (fifo : Fifo) (pow : Nat) (pos : Nat) : Nat × Nat :=
  let count := ((1 <<< pow) - 1) % 65536
  let r := adc_capture_loop fifo count 0 0 pos
  ((r.1 >>> pow) % 65536, r.2)

/-- Sum of the `n` samples `fifo pos, ..., fifo (pos + n - 1)`. -/
def sample_sum (fifo : Fifo) : Nat → Nat → Nat
  | _, 0 => 0
  | pos, n + 1 => fifo pos + sample_sum fifo (pos + 1) n

/-! ## Report dispatcher: `hid_task` (main.c 152-180) -/

/-- The `static` variables of `hid_task`: the schedule counter `start_ms` (`uint32_t`)
and the `zAxis` field (`uint16_t`) of the last report built. -/
structure HidState where
  start_ms : Nat
  zAxis : Nat
deriving DecidableEq, Repr

/-- Initial values of the statics: `start_ms = 0`, `report = { 0 }`. -/
def hid_init : HidState := { start_ms := 0, zAxis := 0 }

/-- What one call of `hid_task` reads from its environment and receives as argument:
`board_millis()`, `board_button_read()`, `tud_suspended()`, `tud_hid_ready()` and `Z`. -/
structure HidCall where
  millis : Nat
  button : Nat
  suspended : Bool
  hid_ready : Bool
  Z : Int
deriving DecidableEq, Repr

/-- The externally visible calls made by one run of `hid_task`:
whether `tud_remote_wakeup()` was called, and the `zAxis` passed to
`tud_hid_report` if it was called. -/
structure HidOut where
  wakeup : Bool
  report : Option Nat
deriving DecidableEq, Repr

/-- Subtraction of two `uint32_t` values (wraps modulo `2^32`). -/
def sub_u32 (a b : Nat) : Nat := Int.toNat (((a : Int) - (b : Int)) % 4294967296)

/-- The cast `(uint16_t)Z` of an `int`. -/
def to_u16 (z : Int) : Nat := Int.toNat (z % 65536)

/-- The poll interval `interval_ms` of `hid_task`. -/
def interval_ms : Nat := 10

/-- Embedding of `void hid_task(int Z)` as a transition on its statics. -/
def hid_task (s : HidState) (c : HidCall) : HidState × HidOut :=
  if sub_u32 c.millis s.start_ms < interval_ms then
    (s, { wakeup := false, report := none })
  else
    let s1 : HidState := { s with start_ms := (s.start_ms + interval_ms) % 4294967296 }
    if c.suspended && (c.button != 0) then
      (s1, { wakeup := true, report := none })
    else if c.hid_ready && (to_u16 c.Z != s1.zAxis) then
      ({ s1 with zAxis := to_u16 c.Z }, { wakeup := false, report := some (to_u16 c.Z) })
    else
      (s1, { wakeup := false, report := none })

/-- Number of calls, among the successive calls `cs` made from state `s`, that transmit
a HID report. -/
def hid_reports (s : HidState) : List HidCall → Nat
  | [] => 0
  | c :: cs =>
    let r := hid_task s c
    (if r.2.report.isSome then 1 else 0) + hid_reports r.1 cs

/-- The state of the statics after the successive calls `cs` made from state `s`. -/
def hid_run (s : HidState) (cs : List HidCall) : HidState :=
  cs.foldl (fun st c => (hid_task st c).1) s

/-- Three calls of `hid_task` at times 100, 101 and 102 ms, the link not suspended, the
button released, the transport ready, and the scaled values 1, 2, 3. -/
def burst_calls : List HidCall :=
  [ { millis := 100, button := 0, suspended := false, hid_ready := true, Z := 1 },
    { millis := 101, button := 0, suspended := false, hid_ready := true, Z := 2 },
    { millis := 102, button := 0, suspended := false, hid_ready := true, Z := 3 } ]

/-- Three calls of `hid_task` at times 5, 10 and 20 ms with changing scaled values. -/
def paced_calls : List HidCall :=
  [ { millis := 5, button := 0, suspended := false, hid_ready := true, Z := 1 },
    { millis := 10, button := 0, suspended := false, hid_ready := true, Z := 2 },
    { millis := 20, button := 0, suspended := false, hid_ready := true, Z := 3 } ]

/-! ## Running accumulator of `adc_capture` (main.c 48-53) -/

/-- The values of `total + (uint32_t)res` computed by the successive iterations of the
loop of `adc_capture`, each taken before its reduction modulo `2^32`: the `uint32_t`
accumulator wraps at an iteration exactly when that value exceeds `2^32 - 1`.  The
arguments are those of `adc_capture_loop`. -/
def adc_capture_trace (fifo : Fifo) (count : Nat) (i total pos : Nat) : List Nat :=
  if i ≤ count then
    let res := fifo pos % 65536
    (total + res) :: adc_capture_trace fifo count (i + 1) ((total + res) % 4294967296) (pos + 1)
  else
    []
termination_by count + 1 - i

/-! ## `map` in 32-bit `long` arithmetic (main.c 63-66) -/

/-- Reduction of an integer to the signed 32-bit range `[-2^31, 2^31)` (two's complement
wrap-around). -/
def wrap_i32 (z : Int) : Int := (z + 2147483648) % 4294967296 - 2147483648

/-- The integer `z` is a value of the signed 32-bit type `long`. -/
def fits_i32 (z : Int) : Prop := -2147483648 ≤ z ∧ z < 2147483648

/-- The function `map` with `long` a signed 32-bit type whose every operation wraps
around: the subtractions, the product, the quotient and the final sum are each reduced
by `wrap_i32`.  A zero divisor is `none`, as in `map`. -/
def map32 (x in_min in_max out_min out_max : Int) : Option Int :=
  let d := wrap_i32 (in_max - in_min)
  if d = 0 then none
  else
    let p := wrap_i32 (wrap_i32 (x - in_min) * wrap_i32 (out_max - out_min))
    some (wrap_i32 (wrap_i32 (Int.tdiv p d) + out_min))

/-! ## Link-state callbacks and SET_REPORT handler (main.c 23-30, 120-144, 199-228) -/

/-- Blink interval while the device is not mounted (`BLINK_NOT_MOUNTED`). -/
def BLINK_NOT_MOUNTED : Nat := 250

/-- Blink interval while the device is mounted (`BLINK_MOUNTED`). -/
def BLINK_MOUNTED : Nat := 1000

/-- Blink interval while the bus is suspended (`BLINK_SUSPENDED`). -/
def BLINK_SUSPENDED : Nat := 2500

/-- Initial value of the global `blink_interval_ms`. -/
def blink_interval_init : Nat := BLINK_NOT_MOUNTED

/-- Embedding of `tud_mount_cb`: the new value of `blink_interval_ms`, given the old one. -/
def tud_mount_cb (_blink_interval_ms : Nat) : Nat := BLINK_MOUNTED

/-- Embedding of `tud_umount_cb`: the new value of `blink_interval_ms`, given the old one. -/
def tud_umount_cb (_blink_interval_ms : Nat) : Nat := BLINK_NOT_MOUNTED

/-- Embedding of `tud_suspend_cb(bool remote_wakeup_en)`: the flag is ignored. -/
def tud_suspend_cb (_blink_interval_ms : Nat) (_remote_wakeup_en : Bool) : Nat :=
  BLINK_SUSPENDED

/-- Embedding of `tud_resume_cb`: the new value of `blink_interval_ms`, given the old one. -/
def tud_resume_cb (_blink_interval_ms : Nat) : Nat := BLINK_MOUNTED

/-- The constants of the USB stack headers used by `tud_hid_set_report_cb`; their values
are declared outside `main.c` and are parameters of the embedding. -/
structure UsbConsts where
  HID_REPORT_TYPE_OUTPUT : Nat
  REPORT_ID_KEYBOARD : Nat
  KEYBOARD_LED_CAPSLOCK : Nat
deriving DecidableEq, Repr

/-- Embedding of `tud_hid_set_report_cb(instance, report_id, report_type, buffer, bufsize)`
(the unused `instance` is omitted).  `buffer k` is the byte at index `k` of the buffer.
The result is the new value of `blink_interval_ms` and the argument of the call of
`board_led_write`, if one was made. -/
def tud_hid_set_report_cb (k : UsbConsts) (blink_interval_ms : Nat) (report_id report_type : Nat)
    (buffer : Nat → Nat) (bufsize : Nat) : Nat × Option Bool :=
  if report_type = k.HID_REPORT_TYPE_OUTPUT then
    if report_id = k.REPORT_ID_KEYBOARD then
      if bufsize < 1 then (blink_interval_ms, none)
      else
        let kbd_leds := buffer 0 % 256
        if kbd_leds &&& k.KEYBOARD_LED_CAPSLOCK ≠ 0 then (0, some true)
        else (BLINK_MOUNTED, some false)
    else (blink_interval_ms, none)
  else (blink_interval_ms, none)

/-- Constants with the capslock bit `0x02` of the specification's scenario, the OUTPUT
report type 2 and the keyboard report id 1. -/
def scenario_consts : UsbConsts :=
  { HID_REPORT_TYPE_OUTPUT := 2, REPORT_ID_KEYBOARD := 1, KEYBOARD_LED_CAPSLOCK := 2 }

/-! ## Auxiliary lemmas -/

/-- On natural numbers the truncating division is the natural quotient. -/
theorem truncDiv_nat (a b : Nat) : truncDiv (a : Int) (b : Int) = ((a / b : Nat) : Int) := by
  unfold truncDiv
  rcases Nat.eq_zero_or_pos a with rfl | ha
  · simp
  rcases Nat.eq_zero_or_pos b with rfl | hb
  · simp
  have h1 : Int.sign (a : Int) = 1 := Int.sign_eq_one_of_pos (by exact_mod_cast ha)
  have h2 : Int.sign (b : Int) = 1 := Int.sign_eq_one_of_pos (by exact_mod_cast hb)
  simp [h1, h2]

/-- Negating the numerator negates the truncated quotient. -/
theorem truncDiv_neg_left (n d : Int) : truncDiv (-n) d = - truncDiv n d := by
  simp [truncDiv, Int.sign_neg]

/-- Negating the divisor negates the truncated quotient. -/
theorem truncDiv_neg_right (n d : Int) : truncDiv n (-d) = - truncDiv n d := by
  simp [truncDiv, Int.sign_neg]

/-- The C quotient `Int.tdiv` is the truncating division of the specification. -/
theorem tdiv_eq_truncDiv (n d : Int) : Int.tdiv n d = truncDiv n d := by
  obtain ⟨a, rfl | rfl⟩ := Int.eq_nat_or_neg n <;> obtain ⟨b, rfl | rfl⟩ := Int.eq_nat_or_neg d
  · rw [truncDiv_nat]; rfl
  · rw [truncDiv_neg_right, truncDiv_nat, Int.tdiv_neg]; rfl
  · rw [truncDiv_neg_left, truncDiv_nat, Int.neg_tdiv]; rfl
  · rw [truncDiv_neg_left, truncDiv_neg_right, truncDiv_nat, Int.neg_tdiv_neg]; simp; rfl

/-- With a positive divisor, `map` is defined and is the floor quotient on a
non-negative numerator. -/
theorem map_of_lt (x mn mx : Int) (h : mn < mx) (hx : mn ≤ x) :
    map x mn mx 0 MAX_VAL = some ((x - mn) * 2048 / (mx - mn)) := by
  have hd : mx - mn ≠ 0 := by omega
  have hn : 0 ≤ (x - mn) * 2048 := by omega
  have hp : 0 ≤ mx - mn := by omega
  simp only [map, MAX_VAL, if_neg hd, sub_zero, add_zero, Int.tdiv_eq_ediv hn hp]

/-- A reading inside a non-degenerate range scales into `[0, 2048]`. -/
theorem map_bounds (x mn mx : Int) (h : mn < mx) (h1 : mn ≤ x) (h2 : x ≤ mx) :
    ∃ v, map x mn mx 0 MAX_VAL = some v ∧ 0 ≤ v ∧ v ≤ 2048 := by
  refine ⟨_, map_of_lt x mn mx h h1, ?_, ?_⟩
  · exact Int.ediv_nonneg (by omega) (by omega)
  · apply Int.ediv_le_of_le_mul (by omega)
    nlinarith

/-- After an update the reading lies between the stored bounds. -/
theorem range_update_contains (s : Range) (res : Nat) :
    (range_update s res).min ≤ res ∧ res ≤ (range_update s res).max := by
  simp only [range_update]
  constructor <;> split <;> omega

/-- One update only widens the range. -/
theorem range_update_widens (s : Range) (res : Nat) :
    (range_update s res).min ≤ s.min ∧ s.max ≤ (range_update s res).max := by
  simp only [range_update]
  constructor <;> split <;> omega

/-- A run of updates only widens the range and covers every reading processed. -/
theorem range_run_covers (rs : List Nat) : ∀ s : Range,
    (range_run s rs).min ≤ s.min ∧ s.max ≤ (range_run s rs).max ∧
    ∀ r ∈ rs, (range_run s rs).min ≤ r ∧ r ≤ (range_run s rs).max := by
  induction rs with
  | nil => intro s; simp [range_run]
  | cons a rs ih =>
    intro s
    have h1 := range_update_contains s a
    have h2 := range_update_widens s a
    obtain ⟨h3, h4, h5⟩ := ih (range_update s a)
    have e : range_run s (a :: rs) = range_run (range_update s a) rs := rfl
    rw [e]
    refine ⟨by omega, by omega, ?_⟩
    intro r hr
    rcases List.mem_cons.mp hr with rfl | hr
    · omega
    · exact h5 r hr

/-- Appending one reading to a run performs one more update. -/
theorem range_run_snoc (s : Range) (rs : List Nat) (r : Nat) :
    range_run s (rs ++ [r]) = range_update (range_run s rs) r := by
  simp [range_run, List.foldl_append]

/-- A sum of `n` samples of at most 4095 is at most `n * 4095`. -/
theorem sample_sum_le (fifo : Fifo) (hs : ∀ k, fifo k ≤ 4095) (n : Nat) :
    ∀ pos, sample_sum fifo pos n ≤ n * 4095 := by
  induction n with
  | zero => intro pos; simp [sample_sum]
  | succ n ih =>
    intro pos
    have h1 := hs pos
    have h2 := ih (pos + 1)
    simp only [sample_sum]
    omega

/-- The capture loop with `n` iterations left adds the next `n` samples to the
accumulator, without wrap-around, and advances the stream by `n`. -/
theorem adc_capture_loop_sum (fifo : Fifo) (count : Nat) (hs : ∀ k, fifo k ≤ 4095) (n : Nat) :
    ∀ i total pos, i + n = count + 1 → total + n * 4095 < 4294967296 →
      adc_capture_loop fifo count i total pos = (total + sample_sum fifo pos n, pos + n) := by
  induction n with
  | zero =>
    intro i total pos hi _
    rw [adc_capture_loop, if_neg (by omega)]
    simp [sample_sum]
  | succ n ih =>
    intro i total pos hi ht
    have h1 := hs pos
    rw [adc_capture_loop, if_pos (by omega)]
    have e1 : fifo pos % 65536 = fifo pos := Nat.mod_eq_of_lt (by omega)
    have e2 : (total + fifo pos) % 4294967296 = total + fifo pos := Nat.mod_eq_of_lt (by omega)
    simp only [e1, e2]
    rw [ih (i + 1) (total + fifo pos) (pos + 1) (by omega) (by omega)]
    simp only [sample_sum]
    congr 1 <;> omega

/-- Without wrap-around the 32-bit difference is the ordinary difference. -/
theorem sub_u32_of_le (a b : Nat) (hba : b ≤ a) (ha : a < 4294967296) :
    sub_u32 a b = a - b := by
  unfold sub_u32
  omega

/-- Effect of one call on the schedule counter when the counter is not ahead of the clock. -/
theorem hid_task_start (s : HidState) (c : HidCall) (h1 : s.start_ms ≤ c.millis)
    (h2 : c.millis < 4294967296) :
    ((hid_task s c).2.report.isSome = true → s.start_ms + 10 ≤ c.millis ∧
        (hid_task s c).1.start_ms = s.start_ms + 10) ∧
    s.start_ms ≤ (hid_task s c).1.start_ms ∧ (hid_task s c).1.start_ms ≤ c.millis := by
  have e := sub_u32_of_le c.millis s.start_ms h1 h2
  unfold hid_task
  rw [e]
  simp only [interval_ms]
  by_cases hd : c.millis - s.start_ms < 10
  · simp [hd, h1]
  · have e2 : (s.start_ms + 10) % 4294967296 = s.start_ms + 10 := Nat.mod_eq_of_lt (by omega)
    simp only [hd, if_false, e2]
    split
    · simp; omega
    · split
      · simp; omega
      · simp; omega

/-- Every transmitted report moves the schedule counter ten milliseconds closer to the
latest call time `B`. -/
theorem hid_reports_schedule (cs : List HidCall) (B : Nat) (hB : B < 4294967296) :
    ∀ s : HidState, s.start_ms ≤ B →
      List.Pairwise (fun a b : HidCall => a.millis ≤ b.millis) cs →
      (∀ c ∈ cs, s.start_ms ≤ c.millis ∧ c.millis ≤ B) →
      s.start_ms + 10 * hid_reports s cs ≤ B := by
  induction cs with
  | nil => intro s hs _ _; simpa [hid_reports] using hs
  | cons c cs ih =>
    intro s hs hp hw
    have hc := hw c (List.mem_cons_self c cs)
    obtain ⟨hrep, hmono, hle⟩ := hid_task_start s c hc.1 (by omega)
    have hp2 := List.pairwise_cons.mp hp
    have hrec := ih (hid_task s c).1 (by omega) hp2.2 (by
      intro d hd
      have h1 := hp2.1 d hd
      have h2 := hw d (List.mem_cons_of_mem c hd)
      omega)
    simp only [hid_reports]
    by_cases hr : (hid_task s c).2.report.isSome = true
    · have := hrep hr
      simp only [hr, if_true]
      omega
    · simp only [hr]
      simp only [Bool.false_eq_true, if_false]
      omega

/-- From a counter that is not ahead of the clock, a run of calls at non-decreasing
times up to `t` leaves the counter at most `t`. -/
theorem hid_run_start_le (cs : List HidCall) (t : Nat) (ht : t < 4294967296) :
    ∀ s : HidState, s.start_ms ≤ t →
      List.Pairwise (fun a b : HidCall => a.millis ≤ b.millis) cs →
      (∀ c ∈ cs, s.start_ms ≤ c.millis ∧ c.millis ≤ t) →
      (hid_run s cs).start_ms ≤ t := by
  induction cs with
  | nil => intro s hs _ _; simpa [hid_run] using hs
  | cons c cs ih =>
    intro s hs hp hw
    have hc := hw c (List.mem_cons_self c cs)
    obtain ⟨_, hmono, hle⟩ := hid_task_start s c hc.1 (by omega)
    have hp2 := List.pairwise_cons.mp hp
    have e : hid_run s (c :: cs) = hid_run (hid_task s c).1 cs := rfl
    rw [e]
    apply ih (hid_task s c).1 (by omega) hp2.2
    intro d hd
    have h1 := hp2.1 d hd
    have h2 := hw d (List.mem_cons_of_mem c hd)
    omega

/-! ## Scaler and range tracker: claims C1, C2, C7, C8, C10 -/

/-- C1: for every range with `min < max` and every reading `r` with `min ≤ r ≤ max`,
`map(r, min, max, 0, 2048)` is defined and lies in `[0, 2048]`; and in the main loop,
where the range update has just put the reading between the bounds, the scaled value
lies in `[0, 2048]` whenever the updated bounds satisfy `min < max`. -/
theorem C1_map_within_output_range (r mn mx : Int) (s : Range) (res : Nat)
    (hlt : mn < mx) (hlo : mn ≤ r) (hhi : r ≤ mx)
    (hs : (range_update s res).min < (range_update s res).max) :
    (∃ v, map r mn mx 0 2048 = some v ∧ 0 ≤ v ∧ v ≤ 2048) ∧
    (∃ v, main_scaled s res = some v ∧ 0 ≤ v ∧ v ≤ 2048) := by
  refine ⟨map_bounds r mn mx hlt hlo hhi, ?_⟩
  have hc := range_update_contains s res
  exact map_bounds (res : Int) _ _ (by exact_mod_cast hs) (by exact_mod_cast hc.1)
    (by exact_mod_cast hc.2)

/-- Witness of C1 at the range `(500, 1500)` with reading `1000`, and at the loop
iteration that processes the reading `1000` with bounds `(500, 1500)`. -/
theorem C1_map_within_output_range_witness :
    ((500 : Int) < 1500 ∧ (500 : Int) ≤ 1000 ∧ (1000 : Int) ≤ 1500 ∧
      (range_update ⟨500, 1500⟩ 1000).min < (range_update ⟨500, 1500⟩ 1000).max) ∧
    (∃ v, map 1000 500 1500 0 2048 = some v ∧ 0 ≤ v ∧ v ≤ 2048) ∧
    (∃ v, main_scaled ⟨500, 1500⟩ 1000 = some v ∧ 0 ≤ v ∧ v ≤ 2048) :=
  ⟨by decide,
   C1_map_within_output_range 1000 500 1500 ⟨500, 1500⟩ 1000 (by decide) (by decide)
     (by decide) (by decide)⟩

/-- C2: for every range with `min < max`, `map(min, min, max, 0, 2048) = 0` and
`map(max, min, max, 0, 2048) = 2048` exactly. -/
theorem C2_map_endpoints (mn mx : Int) (hlt : mn < mx) :
    map mn mn mx 0 2048 = some 0 ∧ map mx mn mx 0 2048 = some 2048 := by
  have hd : mx - mn ≠ 0 := by omega
  constructor
  · simp [map, hd]
  · simp [map, hd, Int.mul_tdiv_cancel_left]

/-- Witness of C2 at the range `(500, 1500)`. -/
theorem C2_map_endpoints_witness :
    (500 : Int) < 1500 ∧ map 500 500 1500 0 2048 = some 0 ∧
      map 1500 500 1500 0 2048 = some 2048 :=
  ⟨by decide, C2_map_endpoints 500 1500 (by decide)⟩

/-- In exact integer arithmetic `map` is the Scaler formula of the specification. -/
theorem map_eq_scale_spec (x in_min in_max out_min out_max : Int) (hne : in_max ≠ in_min) :
    map x in_min in_max out_min out_max
      = some (scale_spec x in_min in_max out_min out_max) := by
  have hd : in_max - in_min ≠ 0 := sub_ne_zero.mpr hne
  simp only [map, if_neg hd, scale_spec, tdiv_eq_truncDiv]

/-- C7: along every run of the main loop's range update from `min = 4090`, `max = 0`,
processing one more reading `r` never raises `min` and never lowers `max`; the new
`min` is `r` if `r` is smaller than the old `min` and the old `min` otherwise, and the
new `max` is `r` if `r` is larger than the old `max` and the old `max` otherwise. -/
theorem C7_range_monotone_widening (rs : List Nat) (r : Nat) :
    (range_run main_init (rs ++ [r])).min ≤ (range_run main_init rs).min ∧
    (range_run main_init rs).max ≤ (range_run main_init (rs ++ [r])).max ∧
    (range_run main_init (rs ++ [r])).min =
      (if r < (range_run main_init rs).min then r else (range_run main_init rs).min) ∧
    (range_run main_init (rs ++ [r])).max =
      (if r > (range_run main_init rs).max then r else (range_run main_init rs).max) := by
  rw [range_run_snoc]
  have h := range_update_widens (range_run main_init rs) r
  exact ⟨h.1, h.2, rfl, rfl⟩

/-- C8: after a non-empty sequence of readings has been processed from the initial
bounds, every reading `r` of the sequence satisfies `min ≤ r ≤ max`, and `min ≤ max`. -/
theorem C8_range_contains_all_readings (rs : List Nat) (hne : rs ≠ []) :
    (∀ r ∈ rs, (range_run main_init rs).min ≤ r ∧ r ≤ (range_run main_init rs).max) ∧
    (range_run main_init rs).min ≤ (range_run main_init rs).max := by
  have h := (range_run_covers rs main_init).2.2
  refine ⟨h, ?_⟩
  obtain ⟨a, ha⟩ := List.exists_mem_of_ne_nil rs hne
  have := h a ha
  omega

/-- Witness of C8 on the readings `[1000, 500, 1500, 1000]`. -/
theorem C8_range_contains_all_readings_witness :
    ([1000, 500, 1500, 1000] : List Nat) ≠ [] ∧
    (∀ r ∈ ([1000, 500, 1500, 1000] : List Nat),
      (range_run main_init [1000, 500, 1500, 1000]).min ≤ r ∧
      r ≤ (range_run main_init [1000, 500, 1500, 1000]).max) ∧
    (range_run main_init [1000, 500, 1500, 1000]).min ≤
      (range_run main_init [1000, 500, 1500, 1000]).max :=
  ⟨by decide, C8_range_contains_all_readings [1000, 500, 1500, 1000] (by decide)⟩

/-- C10: the code at the failing input.  The first reading `1000` makes both bounds
`1000`, and `map(1000, 1000, 1000, 0, 2048)` reaches the division by `max - min = 0`:
no guard returns a fallback value, for this or any other degenerate range. -/
theorem C10_map_divides_by_zero_on_degenerate_range :
    range_update main_init 1000 = { min := 1000, max := 1000 } ∧
    map 1000 1000 1000 0 2048 = none ∧
    main_scaled main_init 1000 = none ∧
    (∀ x m : Int, map x m m 0 2048 = none) := by
  refine ⟨by decide, by decide, by decide, ?_⟩
  intro x m
  simp [map]

/-! ## Analog sampler: claim C9 -/

/-- C9: for every `pow ≤ 12` and every stream of samples in `0..4095`, `adc_capture(pow)`
takes exactly `2^pow` samples from the stream and returns the floor of their sum divided
by `2^pow`; `adc_capture(0)` takes exactly one sample and returns it unchanged. -/
theorem C9_adc_capture_mean (fifo : Fifo) (pow pos : Nat) (hpow : pow ≤ 12)
    (hs : ∀ k, fifo k ≤ 4095) :
    adc_capture fifo pow pos = (sample_sum fifo pos (2 ^ pow) / 2 ^ pow, pos + 2 ^ pow) ∧
    adc_capture fifo 0 pos = (fifo pos, pos + 1) := by
  have key : ∀ p : Nat, p ≤ 12 →
      adc_capture fifo p pos = (sample_sum fifo pos (2 ^ p) / 2 ^ p, pos + 2 ^ p) := by
    intro p hp12
    have hp : 2 ^ p ≤ 4096 := by
      calc 2 ^ p ≤ 2 ^ 12 := Nat.pow_le_pow_right (by decide) hp12
        _ = 4096 := by norm_num
    have hp0 : 0 < 2 ^ p := Nat.pow_pos (by decide)
    have hc : ((1 <<< p) - 1) % 65536 = 2 ^ p - 1 := by
      rw [Nat.one_shiftLeft]; exact Nat.mod_eq_of_lt (by omega)
    have hl := adc_capture_loop_sum fifo (2 ^ p - 1) hs (2 ^ p) 0 0 pos (by omega) (by omega)
    have hsum := sample_sum_le fifo hs (2 ^ p) pos
    have hq : sample_sum fifo pos (2 ^ p) / 2 ^ p ≤ 4095 := Nat.div_le_of_le_mul hsum
    simp only [adc_capture, hc, hl, Nat.zero_add, Nat.shiftRight_eq_div_pow]
    rw [Nat.mod_eq_of_lt (by omega)]
  refine ⟨key pow hpow, ?_⟩
  rw [key 0 (by decide)]
  simp [sample_sum]

/-- Witness of C9: four samples `10, 11, 12, 13` starting at stream position 10 average
to `11` (the floor of `46 / 4`), and the stream position advances by four. -/
theorem C9_adc_capture_mean_witness :
    (2 ≤ 12 ∧ ∀ k, (fun j : Nat => j % 4096) k ≤ 4095) ∧
    (adc_capture (fun j => j % 4096) 2 10 =
        (sample_sum (fun j => j % 4096) 10 (2 ^ 2) / 2 ^ 2, 10 + 2 ^ 2) ∧
      adc_capture (fun j => j % 4096) 0 10 = ((fun j : Nat => j % 4096) 10, 10 + 1)) ∧
    sample_sum (fun j => j % 4096) 10 (2 ^ 2) / 2 ^ 2 = 11 :=
  ⟨⟨by decide, fun k => by show k % 4096 ≤ 4095; omega⟩,
   C9_adc_capture_mean (fun j => j % 4096) 2 10 (by decide)
     (fun k => by show k % 4096 ≤ 4095; omega),
   by decide⟩

/-! ## Report dispatcher: claims C4, C5, C6 -/

/-- C4 as stated fails: from power-on, three calls at 100, 101 and 102 ms all transmit a
report (the schedule counter is 100 ms behind and advances 10 ms per call), so the
window `[100, 102]` of length `W = 2` holds 3 reports, more than `2 / 10 + 1 = 1`. -/
theorem C4_burst_exceeds_window_bound :
    List.Pairwise (fun a b : HidCall => a.millis ≤ b.millis) burst_calls ∧
    (∀ c ∈ burst_calls, 100 ≤ c.millis ∧ c.millis ≤ 100 + 2) ∧
    hid_reports hid_init burst_calls = 3 ∧
    ¬ (hid_reports hid_init burst_calls ≤ 2 / 10 + 1) := by
  decide

/-- C4 (amended): for calls made from power-on at non-decreasing times, the calls of a
window `[t, t + W]` (before any wrap of the millisecond counter) transmit at most
`(W + b) / 10` reports, where `b = t - start_ms` is the backlog of the schedule counter
when the window opens; when the schedule has caught up (`b < 10`) this is at most
`W / 10 + 1`. -/
theorem C4_rate_limit_up_to_backlog (pre cs : List HidCall) (t W : Nat)
    (hwrap : t + W < 4294967296)
    (hsorted : List.Pairwise (fun a b : HidCall => a.millis ≤ b.millis) (pre ++ cs))
    (hpre : ∀ c ∈ pre, c.millis ≤ t)
    (hwin : ∀ c ∈ cs, t ≤ c.millis ∧ c.millis ≤ t + W) :
    (hid_run hid_init pre).start_ms ≤ t ∧
    hid_reports (hid_run hid_init pre) cs ≤ (W + (t - (hid_run hid_init pre).start_ms)) / 10 ∧
    (t - (hid_run hid_init pre).start_ms < 10 →
      hid_reports (hid_run hid_init pre) cs ≤ W / 10 + 1) := by
  have hp := List.pairwise_append.mp hsorted
  have h0 : (hid_run hid_init pre).start_ms ≤ t :=
    hid_run_start_le pre t (by omega) hid_init (Nat.zero_le t) hp.1
      (fun c hc => ⟨Nat.zero_le _, hpre c hc⟩)
  have h1 := hid_reports_schedule cs (t + W) hwrap (hid_run hid_init pre) (by omega) hp.2.1
    (fun c hc => by have := hwin c hc; omega)
  refine ⟨h0, ?_, ?_⟩
  · rw [Nat.le_div_iff_mul_le (by decide)]
    omega
  · intro hb
    have : hid_reports (hid_run hid_init pre) cs ≤ (W + 10) / 10 := by
      rw [Nat.le_div_iff_mul_le (by decide)]
      omega
    omega

/-- Witness of the amended C4: from power-on, calls at 5, 10 and 20 ms in the window
`[0, 20]` transmit two reports, within the bound `20 / 10 + 1 = 3`. -/
theorem C4_rate_limit_up_to_backlog_witness :
    (0 + 20 < 4294967296 ∧
      List.Pairwise (fun a b : HidCall => a.millis ≤ b.millis) ([] ++ paced_calls) ∧
      (∀ c ∈ ([] : List HidCall), c.millis ≤ 0) ∧
      (∀ c ∈ paced_calls, 0 ≤ c.millis ∧ c.millis ≤ 0 + 20)) ∧
    ((hid_run hid_init []).start_ms ≤ 0 ∧
      hid_reports (hid_run hid_init []) paced_calls ≤
        (20 + (0 - (hid_run hid_init []).start_ms)) / 10 ∧
      (0 - (hid_run hid_init []).start_ms < 10 →
        hid_reports (hid_run hid_init []) paced_calls ≤ 20 / 10 + 1)) ∧
    hid_reports (hid_run hid_init []) paced_calls = 2 :=
  ⟨by decide,
   C4_rate_limit_up_to_backlog [] paced_calls 0 20 (by decide) (by decide) (by decide)
     (by decide),
   by decide⟩

/-- C5: in every dispatcher state (with `zAxis` a `uint16_t` value) and for every
time, button, suspended and transport-ready input, a call whose scaled value equals the
last-sent `zAxis` transmits no report and leaves `zAxis` unchanged. -/
theorem C5_unchanged_value_not_sent (s : HidState) (c : HidCall)
    (hwf : s.zAxis < 65536) (heq : c.Z = (s.zAxis : Int)) :
    (hid_task s c).2.report = none ∧ (hid_task s c).1.zAxis = s.zAxis := by
  have hz : to_u16 c.Z = s.zAxis := by
    unfold to_u16
    omega
  unfold hid_task
  simp only [hz]
  split
  · exact ⟨rfl, rfl⟩
  · split
    · exact ⟨rfl, rfl⟩
    · simp

/-- Witness of C5: a DUE call with the transport ready and `Z = 7` equal to the last-sent
value `7`. -/
theorem C5_unchanged_value_not_sent_witness :
    ((7 : Nat) < 65536 ∧ (7 : Int) = ((7 : Nat) : Int)) ∧
    (hid_task { start_ms := 0, zAxis := 7 }
        { millis := 50, button := 0, suspended := false, hid_ready := true, Z := 7 }).2.report
      = none ∧
    (hid_task { start_ms := 0, zAxis := 7 }
        { millis := 50, button := 0, suspended := false, hid_ready := true, Z := 7 }).1.zAxis
      = 7 :=
  ⟨by decide,
   C5_unchanged_value_not_sent { start_ms := 0, zAxis := 7 }
     { millis := 50, button := 0, suspended := false, hid_ready := true, Z := 7 }
     (by decide) (by decide)⟩

/-- C6: a call of `hid_task` issues a remote-wakeup request if and only if the tick is
DUE (`board_millis() - start_ms >= 10` in 32-bit arithmetic), the link is suspended and
the button is pressed; on such a call no report is transmitted and the last-sent
`zAxis` is unchanged; and no request is issued while the link is not suspended. -/
theorem C6_wakeup_only_when_suspended (s : HidState) (c : HidCall) :
    ((hid_task s c).2.wakeup = true ↔
      (10 ≤ sub_u32 c.millis s.start_ms ∧ c.suspended = true ∧ c.button ≠ 0)) ∧
    ((hid_task s c).2.wakeup = true →
      (hid_task s c).2.report = none ∧ (hid_task s c).1.zAxis = s.zAxis) ∧
    (c.suspended = false → (hid_task s c).2.wakeup = false) := by
  unfold hid_task
  simp only [interval_ms]
  by_cases hd : sub_u32 c.millis s.start_ms < 10
  · simp [hd]
  · have hd2 : 10 ≤ sub_u32 c.millis s.start_ms := by omega
    by_cases hs : c.suspended = true <;> by_cases hb : c.button = 0 <;>
      by_cases hr : c.hid_ready = true <;> by_cases hz : to_u16 c.Z = s.zAxis <;>
      simp [hd, hd2, hs, hb, hr, hz]


/-! ## Auxiliary lemmas for the dispatcher frame, the sampler bounds and 32-bit `map` -/

/-- The cast to `uint16_t` leaves a value of `[0, 65535]` unchanged. -/
theorem to_u16_of_range (z : Int) (h0 : 0 ≤ z) (h1 : z < 65536) :
    ((to_u16 z : Nat) : Int) = z := by
  unfold to_u16
  omega

/-- A value of the signed 32-bit range is left unchanged by the wrap-around. -/
theorem wrap_i32_of_range (z : Int) (h0 : -2147483648 ≤ z) (h1 : z < 2147483648) :
    wrap_i32 z = z := by
  unfold wrap_i32
  omega

/-- Every running total of the capture loop with `n` iterations left stays below the
bound `B` that the remaining samples cannot exceed. -/
theorem adc_capture_trace_le (fifo : Fifo) (count B : Nat) (hs : ∀ k, fifo k ≤ 4095)
    (hB : B < 4294967296) (n : Nat) :
    ∀ i total pos, i + n = count + 1 → total + n * 4095 ≤ B →
      (adc_capture_trace fifo count i total pos).length = n ∧
      ∀ v ∈ adc_capture_trace fifo count i total pos, v ≤ B := by
  induction n with
  | zero =>
    intro i total pos hi _
    rw [adc_capture_trace, if_neg (by omega)]
    simp
  | succ n ih =>
    intro i total pos hi ht
    have h1 := hs pos
    rw [adc_capture_trace, if_pos (by omega)]
    have e1 : fifo pos % 65536 = fifo pos := Nat.mod_eq_of_lt (by omega)
    have e2 : (total + fifo pos) % 4294967296 = total + fifo pos := Nat.mod_eq_of_lt (by omega)
    simp only [e1, e2]
    obtain ⟨hlen, hall⟩ := ih (i + 1) (total + fifo pos) (pos + 1) (by omega) (by omega)
    refine ⟨by simp [hlen], ?_⟩
    intro v hv
    rcases List.mem_cons.mp hv with rfl | hv
    · omega
    · exact hall v hv

/-- A window of `n` samples that are all at least `lo` sums to at least `n * lo`. -/
theorem sample_sum_ge (fifo : Fifo) (lo : Nat) (n : Nat) :
    ∀ pos, (∀ k, k < n → lo ≤ fifo (pos + k)) → n * lo ≤ sample_sum fifo pos n := by
  induction n with
  | zero => intro pos _; simp [sample_sum]
  | succ n ih =>
    intro pos h
    have h0 := h 0 (by omega)
    have h1 := ih (pos + 1) (fun k hk => by
      have := h (k + 1) (by omega)
      rwa [show pos + 1 + k = pos + (k + 1) by omega])
    simp only [sample_sum]
    rw [Nat.add_zero] at h0
    rw [Nat.succ_mul]
    omega

/-- A window of `n` samples that are all at most `hi` sums to at most `n * hi`. -/
theorem sample_sum_le_window (fifo : Fifo) (hi : Nat) (n : Nat) :
    ∀ pos, (∀ k, k < n → fifo (pos + k) ≤ hi) → sample_sum fifo pos n ≤ n * hi := by
  induction n with
  | zero => intro pos _; simp [sample_sum]
  | succ n ih =>
    intro pos h
    have h0 := h 0 (by omega)
    have h1 := ih (pos + 1) (fun k hk => by
      have := h (k + 1) (by omega)
      rwa [show pos + 1 + k = pos + (k + 1) by omega])
    simp only [sample_sum]
    rw [Nat.add_zero] at h0
    rw [Nat.succ_mul]
    omega

/-- For `pow ≤ 12` and 12-bit samples, `adc_capture` returns the floor mean of the next
`2^pow` samples and advances the stream by `2^pow`. -/
theorem adc_capture_value (fifo : Fifo) (pow pos : Nat) (hpow : pow ≤ 12)
    (hs : ∀ k, fifo k ≤ 4095) :
    adc_capture fifo pow pos = (sample_sum fifo pos (2 ^ pow) / 2 ^ pow, pos + 2 ^ pow) := by
  have hp : 2 ^ pow ≤ 4096 := by
    calc 2 ^ pow ≤ 2 ^ 12 := Nat.pow_le_pow_right (by decide) hpow
      _ = 4096 := by norm_num
  have hp0 : 0 < 2 ^ pow := Nat.pow_pos (by decide)
  have hc : ((1 <<< pow) - 1) % 65536 = 2 ^ pow - 1 := by
    rw [Nat.one_shiftLeft]; exact Nat.mod_eq_of_lt (by omega)
  have hl := adc_capture_loop_sum fifo (2 ^ pow - 1) hs (2 ^ pow) 0 0 pos (by omega) (by omega)
  have hsum := sample_sum_le fifo hs (2 ^ pow) pos
  have hq : sample_sum fifo pos (2 ^ pow) / 2 ^ pow ≤ 4095 := Nat.div_le_of_le_mul hsum
  simp only [adc_capture, hc, hl, Nat.zero_add, Nat.shiftRight_eq_div_pow]
  rw [Nat.mod_eq_of_lt (by omega)]

/-! ## Report dispatcher: claims C11, C14 -/

/-- C11: on a DUE tick that does not take the wake-up branch, for a scaled value `Z` in
`[0, 2048]`, a report is transmitted if and only if the transport is ready and `Z`
differs from the last-sent `zAxis`; a transmitted report carries `zAxis = Z` and the
last-sent value becomes `Z`; otherwise no report is sent and the last-sent value is
unchanged. -/
theorem C11_report_sent_iff_ready_and_changed (s : HidState) (c : HidCall)
    (hdue : ¬ sub_u32 c.millis s.start_ms < 10)
    (hnowake : ¬ (c.suspended = true ∧ c.button ≠ 0))
    (hz0 : 0 ≤ c.Z) (hz1 : c.Z ≤ 2048) :
    ((hid_task s c).2.report.isSome = true ↔
      (c.hid_ready = true ∧ c.Z ≠ (s.zAxis : Int))) ∧
    ((c.hid_ready = true ∧ c.Z ≠ (s.zAxis : Int)) →
      ∃ z : Nat, (z : Int) = c.Z ∧ (hid_task s c).2.report = some z ∧
        (hid_task s c).1.zAxis = z) ∧
    (¬ (c.hid_ready = true ∧ c.Z ≠ (s.zAxis : Int)) →
      (hid_task s c).2.report = none ∧ (hid_task s c).1.zAxis = s.zAxis) := by
  have hu : ((to_u16 c.Z : Nat) : Int) = c.Z := to_u16_of_range c.Z hz0 (by omega)
  have hne : (c.Z = (s.zAxis : Int)) = (to_u16 c.Z = s.zAxis) := by
    apply propext
    constructor
    · intro h; rw [← hu] at h; exact_mod_cast h
    · intro h; rw [← hu, h]
  have hw : (c.suspended && (c.button != 0)) = false := by
    by_cases h1 : c.suspended = true <;> by_cases h2 : c.button = 0 <;> simp_all
  simp only [ne_eq, hne]
  unfold hid_task
  simp only [interval_ms, hdue, if_false, hw]
  by_cases hr : c.hid_ready = true <;> by_cases hz : to_u16 c.Z = s.zAxis
  · simp [hr, hz]
  · simp [hr, hz, hu]
  · simp [hr, hz]
  · simp [hr, hz]

/-- Witness of C11: a DUE tick 50 ms after the last scheduled one, link not suspended,
transport ready, `Z = 1024` and last-sent value `7`; the report carries 1024. -/
theorem C11_report_sent_iff_ready_and_changed_witness :
    (¬ sub_u32 50 0 < 10 ∧ ¬ (false = true ∧ (0 : Nat) ≠ 0) ∧ (0 : Int) ≤ 1024 ∧
      (1024 : Int) ≤ 2048) ∧
    ((hid_task { start_ms := 0, zAxis := 7 }
        { millis := 50, button := 0, suspended := false, hid_ready := true, Z := 1024 }).2.report.isSome
      = true ↔ ((true = true) ∧ (1024 : Int) ≠ ((7 : Nat) : Int))) ∧
    (hid_task { start_ms := 0, zAxis := 7 }
        { millis := 50, button := 0, suspended := false, hid_ready := true, Z := 1024 })
      = ({ start_ms := 10, zAxis := 1024 }, { wakeup := false, report := some 1024 }) :=
  ⟨by decide,
   (C11_report_sent_iff_ready_and_changed { start_ms := 0, zAxis := 7 }
     { millis := 50, button := 0, suspended := false, hid_ready := true, Z := 1024 }
     (by decide) (by decide) (by decide) (by decide)).1,
   by decide⟩

/-- C14: a call of `hid_task` with `(now - start_ms) mod 2^32 < 10` issues no wake-up
request, transmits no report and leaves `start_ms` and the last-sent value unchanged;
any other call sets `start_ms` to `(start_ms + 10) mod 2^32`, whatever the time
elapsed. -/
theorem C14_idle_frame_and_single_step (s : HidState) (c : HidCall) :
    (sub_u32 c.millis s.start_ms < 10 →
      hid_task s c = (s, { wakeup := false, report := none })) ∧
    (¬ sub_u32 c.millis s.start_ms < 10 →
      (hid_task s c).1.start_ms = (s.start_ms + 10) % 4294967296) ∧
    sub_u32 c.millis s.start_ms = Int.toNat (((c.millis : Int) - (s.start_ms : Int)) % 2 ^ 32) := by
  refine ⟨?_, ?_, ?_⟩
  · intro h
    simp [hid_task, interval_ms, h]
  · intro h
    unfold hid_task
    simp only [interval_ms, h, if_false]
    split
    · rfl
    · split <;> rfl
  · rfl

/-! ## Link-state monitor: claims C12, C13 -/

/-- C12: for an OUTPUT report with the keyboard report id and `bufsize ≥ 1`,
`tud_hid_set_report_cb` sets the blink interval to 0 and writes the LED on when
`buffer[0]` has the capslock bit set, and otherwise writes the LED off and sets the
blink interval to the MOUNTED value 1000; for any other report type or id, or when
`bufsize < 1`, the blink interval is unchanged and the LED is not written.  With the
capslock bit `0x02`, the byte `0x02` takes the first case and the byte `0x00` the
second. -/
theorem C12_set_report_capslock (k : UsbConsts) (blink report_id report_type : Nat)
    (buffer : Nat → Nat) (bufsize : Nat) :
    ((report_type = k.HID_REPORT_TYPE_OUTPUT ∧ report_id = k.REPORT_ID_KEYBOARD ∧ 1 ≤ bufsize) →
      ((buffer 0 % 256) &&& k.KEYBOARD_LED_CAPSLOCK ≠ 0 →
        tud_hid_set_report_cb k blink report_id report_type buffer bufsize = (0, some true)) ∧
      ((buffer 0 % 256) &&& k.KEYBOARD_LED_CAPSLOCK = 0 →
        tud_hid_set_report_cb k blink report_id report_type buffer bufsize
          = (1000, some false))) ∧
    (¬ (report_type = k.HID_REPORT_TYPE_OUTPUT ∧ report_id = k.REPORT_ID_KEYBOARD ∧
        1 ≤ bufsize) →
      tud_hid_set_report_cb k blink report_id report_type buffer bufsize = (blink, none)) ∧
    tud_hid_set_report_cb scenario_consts blink 1 2 (fun _ => 2) 1 = (0, some true) ∧
    tud_hid_set_report_cb scenario_consts blink 1 2 (fun _ => 0) 1 = (1000, some false) := by
  refine ⟨?_, ?_, ?_, ?_⟩
  · rintro ⟨h1, h2, h3⟩
    have h4 : ¬ bufsize < 1 := by omega
    constructor
    · intro h
      simp [tud_hid_set_report_cb, h1, h2, h4, h]
    · intro h
      simp [tud_hid_set_report_cb, h1, h2, h4, h, BLINK_MOUNTED]
  · intro h
    unfold tud_hid_set_report_cb
    by_cases h1 : report_type = k.HID_REPORT_TYPE_OUTPUT
    · by_cases h2 : report_id = k.REPORT_ID_KEYBOARD
      · have h3 : bufsize < 1 := by
          by_contra h3
          exact h ⟨h1, h2, by omega⟩
        simp [h1, h2, h3]
      · simp [h1, h2]
    · simp [h1]
  · simp [tud_hid_set_report_cb, scenario_consts]
  · simp [tud_hid_set_report_cb, scenario_consts, BLINK_MOUNTED]

/-- C13: whatever the previous blink interval, `tud_mount_cb` sets it to 1000 ms,
`tud_umount_cb` to 250 ms, `tud_suspend_cb` to 2500 ms for either value of the
remote-wakeup flag, and `tud_resume_cb` to 1000 ms; the initial interval is 250 ms. -/
theorem C13_lifecycle_blink_intervals (blink : Nat) (remote_wakeup_en : Bool) :
    tud_mount_cb blink = 1000 ∧ tud_umount_cb blink = 250 ∧
    tud_suspend_cb blink remote_wakeup_en = 2500 ∧ tud_resume_cb blink = 1000 ∧
    blink_interval_init = 250 := by
  exact ⟨rfl, rfl, rfl, rfl, rfl⟩

/-! ## Range tracker: claims C15, C16 -/

/-- C15: once two distinct reading values occur among the readings processed from the
initial bounds, `max > min` holds after the current reading `r` (and so after every
later one, the run being arbitrary), the divisor `max - min` passed to `map` is
strictly positive, and the scaled value of the iteration is defined. -/
theorem C15_range_nondegenerate_after_two_values (rs : List Nat) (r a b : Nat)
    (ha : a ∈ rs ++ [r]) (hb : b ∈ rs ++ [r]) (hab : a ≠ b) :
    (range_run main_init (rs ++ [r])).min < (range_run main_init (rs ++ [r])).max ∧
    (0 : Int) < ((range_run main_init (rs ++ [r])).max : Int)
      - ((range_run main_init (rs ++ [r])).min : Int) ∧
    ∃ v, main_scaled (range_run main_init rs) r = some v := by
  have h := (range_run_covers (rs ++ [r]) main_init).2.2
  have h1 := h a ha
  have h2 := h b hb
  have hlt : (range_run main_init (rs ++ [r])).min < (range_run main_init (rs ++ [r])).max := by
    omega
  refine ⟨hlt, by omega, ?_⟩
  rw [range_run_snoc] at hlt
  have hc := range_update_contains (range_run main_init rs) r
  obtain ⟨v, hv, _⟩ := map_bounds (r : Int)
    ((range_update (range_run main_init rs) r).min : Int)
    ((range_update (range_run main_init rs) r).max : Int)
    (by exact_mod_cast hlt) (by exact_mod_cast hc.1) (by exact_mod_cast hc.2)
  exact ⟨v, hv⟩

/-- Witness of C15 on the readings `[1000, 1000, 500]`: the third reading brings the
second distinct value. -/
theorem C15_range_nondegenerate_after_two_values_witness :
    (1000 ∈ [1000, 1000] ++ [500] ∧ 500 ∈ [1000, 1000] ++ [500] ∧ (1000 : Nat) ≠ 500) ∧
    ((range_run main_init ([1000, 1000] ++ [500])).min
        < (range_run main_init ([1000, 1000] ++ [500])).max ∧
      (0 : Int) < ((range_run main_init ([1000, 1000] ++ [500])).max : Int)
        - ((range_run main_init ([1000, 1000] ++ [500])).min : Int) ∧
      ∃ v, main_scaled (range_run main_init [1000, 1000]) 500 = some v) :=
  ⟨by decide,
   C15_range_nondegenerate_after_two_values [1000, 1000] 500 1000 500 (by decide) (by decide)
     (by decide)⟩

/-- C16: the code at the failing input.  The first reading `4095` lies in the 12-bit
domain but is not below the initial `min = 4090`, so `min` stays `4090` and is not
narrowed to the reading; the same happens for every first reading above `4090`.  The
sibling bound `max`, initialised to the true extreme `0`, is narrowed to every first
reading. -/
theorem C16_first_reading_above_initial_min :
    (4095 : Nat) ≤ 4095 ∧
    range_update main_init 4095 = { min := 4090, max := 4095 } ∧
    (range_update main_init 4095).min ≠ 4095 ∧
    (∀ r : Nat, 4090 < r → (range_update main_init r).min = 4090) ∧
    (∀ r : Nat, (range_update main_init r).max = r) := by
  refine ⟨by decide, by decide, by decide, ?_, ?_⟩
  · intro r hr
    simp only [range_update, main_init]
    split <;> omega
  · intro r
    simp only [range_update, main_init]
    split <;> omega

/-! ## Analog sampler: claims C17, C18 -/

/-- C17: for `pow ≤ 12` and samples of at most 4095, every running total of the loop of
`adc_capture` is at most `4096 * 4095`, hence at most `2^32 - 1`, so the `uint32_t`
accumulator never wraps; the loop makes `2^pow` iterations; and the loop bound
`(1 << pow) - 1` is at most 65535, so it is stored unchanged in its `uint16_t`. -/
theorem C17_accumulator_never_wraps (fifo : Fifo) (pow pos : Nat) (hpow : pow ≤ 12)
    (hs : ∀ k, fifo k ≤ 4095) :
    (∀ v ∈ adc_capture_trace fifo (((1 <<< pow) - 1) % 65536) 0 0 pos,
      v ≤ 4096 * 4095 ∧ v ≤ 4294967295) ∧
    (adc_capture_trace fifo (((1 <<< pow) - 1) % 65536) 0 0 pos).length = 2 ^ pow ∧
    (1 <<< pow) - 1 ≤ 65535 ∧
    ((1 <<< pow) - 1) % 65536 = 2 ^ pow - 1 := by
  have hp : 2 ^ pow ≤ 4096 := by
    calc 2 ^ pow ≤ 2 ^ 12 := Nat.pow_le_pow_right (by decide) hpow
      _ = 4096 := by norm_num
  have hp0 : 0 < 2 ^ pow := Nat.pow_pos (by decide)
  have hc : ((1 <<< pow) - 1) % 65536 = 2 ^ pow - 1 := by
    rw [Nat.one_shiftLeft]; exact Nat.mod_eq_of_lt (by omega)
  have ht := adc_capture_trace_le fifo (2 ^ pow - 1) (4096 * 4095) hs (by decide) (2 ^ pow)
    0 0 pos (by omega) (by omega)
  rw [hc]
  refine ⟨fun v hv => ?_, ht.1, ?_, rfl⟩
  · have := ht.2 v hv
    omega
  · rw [Nat.one_shiftLeft]; omega

/-- Witness of C17 with `pow = 2` on the stream `0, 1, 2, ...` reduced to 12 bits. -/
theorem C17_accumulator_never_wraps_witness :
    (2 ≤ 12 ∧ ∀ k, (fun j : Nat => j % 4096) k ≤ 4095) ∧
    ((∀ v ∈ adc_capture_trace (fun j => j % 4096) (((1 <<< 2) - 1) % 65536) 0 0 10,
        v ≤ 4096 * 4095 ∧ v ≤ 4294967295) ∧
      (adc_capture_trace (fun j => j % 4096) (((1 <<< 2) - 1) % 65536) 0 0 10).length = 2 ^ 2 ∧
      (1 <<< 2) - 1 ≤ 65535 ∧
      ((1 <<< 2) - 1) % 65536 = 2 ^ 2 - 1) :=
  ⟨⟨by decide, fun k => by show k % 4096 ≤ 4095; omega⟩,
   C17_accumulator_never_wraps (fun j => j % 4096) 2 10 (by decide)
     (fun k => by show k % 4096 ≤ 4095; omega)⟩

/-- C18: for `pow ≤ 12` and samples of at most 4095, the value returned by
`adc_capture(pow)` is at least one of the `2^pow` samples it consumed (hence at least
the smallest) and at most one of them (hence at most the largest); it is at most 4095
and equals the untruncated `total >> pow`. -/
theorem C18_mean_between_min_and_max (fifo : Fifo) (pow pos : Nat) (hpow : pow ≤ 12)
    (hs : ∀ k, fifo k ≤ 4095) :
    (∃ j, j < 2 ^ pow ∧ fifo (pos + j) ≤ (adc_capture fifo pow pos).1) ∧
    (∃ j, j < 2 ^ pow ∧ (adc_capture fifo pow pos).1 ≤ fifo (pos + j)) ∧
    (adc_capture fifo pow pos).1 ≤ 4095 ∧
    (adc_capture fifo pow pos).1
      = (adc_capture_loop fifo (((1 <<< pow) - 1) % 65536) 0 0 pos).1 >>> pow := by
  have hv := adc_capture_value fifo pow pos hpow hs
  have hp0 : 0 < 2 ^ pow := Nat.pow_pos (by decide)
  have hsum := sample_sum_le fifo hs (2 ^ pow) pos
  have hq : sample_sum fifo pos (2 ^ pow) / 2 ^ pow ≤ 4095 := Nat.div_le_of_le_mul hsum
  have h1 : (adc_capture fifo pow pos).1 = sample_sum fifo pos (2 ^ pow) / 2 ^ pow := by
    rw [hv]
  refine ⟨?_, ?_, by omega, ?_⟩
  · by_contra hcon
    push_neg at hcon
    have hge := sample_sum_ge fifo ((adc_capture fifo pow pos).1 + 1) (2 ^ pow) pos
      (fun k hk => hcon k hk)
    have hmul : ((adc_capture fifo pow pos).1 + 1) * 2 ^ pow
        ≤ sample_sum fifo pos (2 ^ pow) := by
      rw [Nat.mul_comm]; exact hge
    have := (Nat.le_div_iff_mul_le hp0).mpr hmul
    omega
  · by_contra hcon
    push_neg at hcon
    have hpos : 0 < (adc_capture fifo pow pos).1 := by
      have := hcon 0 hp0
      omega
    have hle := sample_sum_le_window fifo ((adc_capture fifo pow pos).1 - 1) (2 ^ pow) pos
      (fun k hk => by have := hcon k hk; omega)
    have := Nat.div_le_of_le_mul hle
    omega
  · have h2 : (adc_capture fifo pow pos).1
        = ((adc_capture_loop fifo (((1 <<< pow) - 1) % 65536) 0 0 pos).1 >>> pow) % 65536 := rfl
    have h3 : ((adc_capture_loop fifo (((1 <<< pow) - 1) % 65536) 0 0 pos).1 >>> pow) % 65536
        ≤ 4095 := by rw [← h2]; omega
    have hp : 2 ^ pow ≤ 4096 := by
      calc 2 ^ pow ≤ 2 ^ 12 := Nat.pow_le_pow_right (by decide) hpow
        _ = 4096 := by norm_num
    have hc : ((1 <<< pow) - 1) % 65536 = 2 ^ pow - 1 := by
      rw [Nat.one_shiftLeft]; exact Nat.mod_eq_of_lt (by omega)
    have hl := adc_capture_loop_sum fifo (2 ^ pow - 1) hs (2 ^ pow) 0 0 pos (by omega) (by omega)
    rw [h2, hc, hl]
    simp only [Nat.zero_add, Nat.shiftRight_eq_div_pow]
    exact Nat.mod_eq_of_lt (by omega)

/-- Witness of C18 with `pow = 2` on the samples `10, 11, 12, 13`. -/
theorem C18_mean_between_min_and_max_witness :
    (2 ≤ 12 ∧ ∀ k, (fun j : Nat => j % 4096) k ≤ 4095) ∧
    ((∃ j, j < 2 ^ 2 ∧ (fun j : Nat => j % 4096) (10 + j)
        ≤ (adc_capture (fun j => j % 4096) 2 10).1) ∧
      (∃ j, j < 2 ^ 2 ∧ (adc_capture (fun j => j % 4096) 2 10).1
        ≤ (fun j : Nat => j % 4096) (10 + j)) ∧
      (adc_capture (fun j => j % 4096) 2 10).1 ≤ 4095 ∧
      (adc_capture (fun j => j % 4096) 2 10).1
        = (adc_capture_loop (fun j => j % 4096) (((1 <<< 2) - 1) % 65536) 0 0 10).1 >>> 2) :=
  ⟨⟨by decide, fun k => by show k % 4096 ≤ 4095; omega⟩,
   C18_mean_between_min_and_max (fun j => j % 4096) 2 10 (by decide)
     (fun k => by show k % 4096 ≤ 4095; omega)⟩

/-! ## Scaler: claims C3, C19, C20 -/

/-- C3 as stated fails on the 32-bit `long` of the code: for `x = 3000000`, `in_min = 0`,
`in_max = 1000`, `out_min = 0`, `out_max = 2048` the product `3000000 * 2048` leaves the
32-bit range and wraps, so `map` returns `1849032`, not the value `6144000` of the
formula. -/
theorem C3_map_overflow_differs_from_formula :
    (1000 : Int) ≠ 0 ∧
    map32 3000000 0 1000 0 2048 = some 1849032 ∧
    scale_spec 3000000 0 1000 0 2048 = 6144000 ∧
    map32 3000000 0 1000 0 2048 ≠ some (scale_spec 3000000 0 1000 0 2048) ∧
    ¬ fits_i32 ((3000000 - 0) * (2048 - 0)) := by
  refine ⟨by decide, by decide, by decide, by decide, ?_⟩
  unfold fits_i32
  decide

/-- C3 (amended): for all integers with `in_max ≠ in_min` such that the two differences,
the product, the quotient and the final sum all fit the signed 32-bit `long`, `map` in
32-bit arithmetic returns the quotient of `(x - in_min) * (out_max - out_min)` by
`(in_max - in_min)` truncated toward zero, plus `out_min` (the Scaler formula of the
specification), as does the exact `map`; and the readings `[1000, 500, 1500]` bring the
range of the main loop to `(500, 1500)`, after which the reading `1000` is scaled to
`1024`. -/
theorem C3_map_formula_without_overflow (x in_min in_max out_min out_max : Int)
    (hne : in_max ≠ in_min)
    (hx : fits_i32 (x - in_min)) (ho : fits_i32 (out_max - out_min))
    (hd : fits_i32 (in_max - in_min))
    (hp : fits_i32 ((x - in_min) * (out_max - out_min)))
    (hq : fits_i32 (truncDiv ((x - in_min) * (out_max - out_min)) (in_max - in_min)))
    (hs : fits_i32 (scale_spec x in_min in_max out_min out_max)) :
    map32 x in_min in_max out_min out_max
      = some (scale_spec x in_min in_max out_min out_max) ∧
    map x in_min in_max out_min out_max
      = some (scale_spec x in_min in_max out_min out_max) ∧
    range_run main_init [1000, 500, 1500] = { min := 500, max := 1500 } ∧
    main_scaled (range_run main_init [1000, 500, 1500]) 1000 = some 1024 ∧
    map32 1000 500 1500 0 2048 = some 1024 := by
  refine ⟨?_, map_eq_scale_spec x in_min in_max out_min out_max hne, by decide, by decide,
    by decide⟩
  have hd0 : in_max - in_min ≠ 0 := sub_ne_zero.mpr hne
  have e1 : wrap_i32 (x - in_min) = x - in_min := wrap_i32_of_range _ hx.1 hx.2
  have e2 : wrap_i32 (out_max - out_min) = out_max - out_min := wrap_i32_of_range _ ho.1 ho.2
  have e3 : wrap_i32 (in_max - in_min) = in_max - in_min := wrap_i32_of_range _ hd.1 hd.2
  have e4 : wrap_i32 ((x - in_min) * (out_max - out_min)) = (x - in_min) * (out_max - out_min) :=
    wrap_i32_of_range _ hp.1 hp.2
  have e5 : wrap_i32 (truncDiv ((x - in_min) * (out_max - out_min)) (in_max - in_min))
      = truncDiv ((x - in_min) * (out_max - out_min)) (in_max - in_min) :=
    wrap_i32_of_range _ hq.1 hq.2
  have e6 : wrap_i32 (truncDiv ((x - in_min) * (out_max - out_min)) (in_max - in_min) + out_min)
      = truncDiv ((x - in_min) * (out_max - out_min)) (in_max - in_min) + out_min :=
    wrap_i32_of_range _ hs.1 hs.2
  simp only [map32, e1, e2, e3, e4, if_neg hd0, tdiv_eq_truncDiv, e5, e6, scale_spec]

/-- Witness of the amended C3 with a negative numerator, where truncation and flooring
differ: `map(-7, 0, 2, 0, 1) = -3`. -/
theorem C3_map_formula_without_overflow_witness :
    ((2 : Int) ≠ 0 ∧ fits_i32 (-7 - 0) ∧ fits_i32 (1 - 0) ∧ fits_i32 (2 - 0) ∧
      fits_i32 ((-7 - 0) * (1 - 0)) ∧ fits_i32 (truncDiv ((-7 - 0) * (1 - 0)) (2 - 0)) ∧
      fits_i32 (scale_spec (-7) 0 2 0 1)) ∧
    (map32 (-7) 0 2 0 1 = some (scale_spec (-7) 0 2 0 1) ∧
      map (-7) 0 2 0 1 = some (scale_spec (-7) 0 2 0 1) ∧
      range_run main_init [1000, 500, 1500] = { min := 500, max := 1500 } ∧
      main_scaled (range_run main_init [1000, 500, 1500]) 1000 = some 1024 ∧
      map32 1000 500 1500 0 2048 = some 1024) ∧
    scale_spec (-7) 0 2 0 1 = -3 :=
  ⟨⟨by decide, by unfold fits_i32; decide, by unfold fits_i32; decide,
      by unfold fits_i32; decide, by unfold fits_i32; decide, by unfold fits_i32; decide,
      by unfold fits_i32; decide⟩,
   C3_map_formula_without_overflow (-7) 0 2 0 1 (by decide) (by unfold fits_i32; decide)
     (by unfold fits_i32; decide) (by unfold fits_i32; decide) (by unfold fits_i32; decide)
     (by unfold fits_i32; decide) (by unfold fits_i32; decide),
   by decide⟩


/-- C19: for every range with `min < max` and all readings `min ≤ r1 ≤ r2`, both scaled
values are defined and `map(r1, min, max, 0, 2048) ≤ map(r2, min, max, 0, 2048)`. -/
theorem C19_map_monotone (mn mx r1 r2 : Int) (hlt : mn < mx) (h1 : mn ≤ r1) (h12 : r1 ≤ r2) :
    ∃ v1 v2, map r1 mn mx 0 2048 = some v1 ∧ map r2 mn mx 0 2048 = some v2 ∧ v1 ≤ v2 := by
  refine ⟨_, _, map_of_lt r1 mn mx hlt h1, map_of_lt r2 mn mx hlt (by omega), ?_⟩
  exact Int.ediv_le_ediv (by omega) (by omega)

/-- Witness of C19 on the range `(500, 1500)` with readings `700 ≤ 1000`. -/
theorem C19_map_monotone_witness :
    ((500 : Int) < 1500 ∧ (500 : Int) ≤ 700 ∧ (700 : Int) ≤ 1000) ∧
    ∃ v1 v2, map 700 500 1500 0 2048 = some v1 ∧ map 1000 500 1500 0 2048 = some v2 ∧ v1 ≤ v2 :=
  ⟨by decide, C19_map_monotone 500 1500 700 1000 (by decide) (by decide) (by decide)⟩

/-- C20: for `0 ≤ min ≤ r ≤ max ≤ 4095` with `min < max`, the product `(r - min) * 2048`
is at most `4095 * 2048`, which is below `2^31`; `map` computed in wrapping 32-bit
arithmetic returns the exact value; and that value is unchanged by the cast to
`uint16_t` made in `hid_task`. -/
theorem C20_map_fits_32_bits (r mn mx : Int) (h0 : 0 ≤ mn) (h1 : mn ≤ r) (h2 : r ≤ mx)
    (h3 : mx ≤ 4095) (hlt : mn < mx) :
    (r - mn) * 2048 ≤ 4095 * 2048 ∧ (4095 * 2048 : Int) < 2147483648 ∧
    map32 r mn mx 0 2048 = map r mn mx 0 2048 ∧
    ∃ v, map r mn mx 0 2048 = some v ∧ ((to_u16 v : Nat) : Int) = v := by
  obtain ⟨v, hv, hv0, hv1⟩ := map_bounds r mn mx hlt h1 h2
  have hv2 := map_of_lt r mn mx hlt h1
  have hq : v = (r - mn) * 2048 / (mx - mn) := by
    rw [hv] at hv2
    exact Option.some.inj hv2
  have hd : wrap_i32 (mx - mn) = mx - mn := wrap_i32_of_range _ (by omega) (by omega)
  have hx : wrap_i32 (r - mn) = r - mn := wrap_i32_of_range _ (by omega) (by omega)
  have ho : wrap_i32 (2048 - 0) = 2048 := by decide
  have hp : wrap_i32 ((r - mn) * 2048) = (r - mn) * 2048 :=
    wrap_i32_of_range _ (by omega) (by omega)
  have ht : Int.tdiv ((r - mn) * 2048) (mx - mn) = v := by
    rw [Int.tdiv_eq_ediv (by omega) (by omega), hq]
  have hw : wrap_i32 v = v := wrap_i32_of_range _ (by omega) (by omega)
  refine ⟨by omega, by decide, ?_, v, hv, to_u16_of_range v hv0 (by omega)⟩
  have hm : map32 r mn mx 0 2048 = some v := by
    have hne : mx - mn ≠ 0 := by omega
    simp only [map32, hd, hx, ho, hp, ht, if_neg hne, add_zero, hw]
  rw [hm]
  exact hv.symm

/-- Witness of C20 on the range `(500, 1500)` with reading `1000`. -/
theorem C20_map_fits_32_bits_witness :
    ((0 : Int) ≤ 500 ∧ (500 : Int) ≤ 1000 ∧ (1000 : Int) ≤ 1500 ∧ (1500 : Int) ≤ 4095 ∧
      (500 : Int) < 1500) ∧
    ((1000 - 500 : Int) * 2048 ≤ 4095 * 2048 ∧ (4095 * 2048 : Int) < 2147483648 ∧
      map32 1000 500 1500 0 2048 = map 1000 500 1500 0 2048 ∧
      ∃ v, map 1000 500 1500 0 2048 = some v ∧ ((to_u16 v : Nat) : Int) = v) :=
  ⟨by decide,
   C20_map_fits_32_bits 1000 500 1500 (by decide) (by decide) (by decide) (by decide)
     (by decide)⟩

end Rudder
